import Mathlib

/-!
Verification of the ant game client (`Kairat/datspulse_client.py`) and the hex
utilities (`Kairat/visualizer/utils/hex_utils.py`): a shallow embedding of the
data model, the hex geometry, the greedy path walker, the visibility model and
the decision engine, followed by theorems about the specified behaviour.

Python dictionaries are modelled as structures; dictionary keys that the code
reads through `.get(key, default)` are modelled as `Option` fields, with the
default applied at the corresponding use site.  Python `set` objects become
`Finset`, lists stay `List`, Python ints become `ℤ` (or `ℕ` where the value is
a count), and float arithmetic of the food scorer and the rate limiter is
modelled over `ℚ`.
-/

namespace JustDoIt

/-- Axial hex coordinate, the `{"q": .., "r": ..}` dictionaries of the client. -/
structure HexCoord where
  q : ℤ
  r : ℤ
deriving DecidableEq, Repr

instance : Inhabited HexCoord := ⟨⟨0, 0⟩⟩

/-- A map tile `{"q","r","type"}`; type 5 is rock (impassable stone). -/
structure Tile where
  q : ℤ
  r : ℤ
  type : ℤ
deriving DecidableEq, Repr

/-- The food stack carried by an ant (the `ant["food"]` dictionary). -/
structure FoodStack where
  type : ℤ
  amount : ℤ
deriving DecidableEq, Repr

/-- A friendly ant.  Keys that the client reads with `.get`/`in` tests
(`type`, `food`, `move`, `lastMove`) are `Option` fields. -/
structure Ant where
  id : String
  q : ℤ
  r : ℤ
  type : Option ℤ
  food : Option FoodStack
  move : Option (List HexCoord)
  lastMove : Option (List HexCoord)
deriving DecidableEq, Repr

/-- An enemy ant; the client only ever reads its coordinates. -/
structure Enemy where
  q : ℤ
  r : ℤ
deriving DecidableEq, Repr

/-- Food lying on the map (`{"q","r","type","amount"}`). -/
structure Food where
  q : ℤ
  r : ℤ
  type : ℤ
  amount : ℤ
deriving DecidableEq, Repr

/-- The arena JSON payload, restricted to the keys the client reads. -/
structure Arena where
  ants : List Ant
  enemies : List Enemy
  food : List Food
  home : List HexCoord
  map : List Tile
  spot : Option HexCoord
deriving DecidableEq, Repr

/-- A move command `{"ant": id, "path": [...]}`. -/
structure Move where
  ant : String
  path : List HexCoord
deriving DecidableEq, Repr

/-- The mutable game-state fields of `AntProtocolClient`. -/
structure ClientState where
  current_state : Option Arena
  ants : List Ant
  enemies : List Enemy
  food : List Food
  home : List HexCoord
  map_tiles : List Tile
  visible_tiles : Finset (ℤ × ℤ)

/-- `AntProtocolClient.hex_distance`: `(|q1-q2| + |q1+r1-q2-r2| + |r1-r2|) // 2`.
The sum is even and non-negative, so Python floor division agrees with `ℕ`
division.  `HexUtils.calculate_hex_distance` is the same formula verbatim. -/
def hex_distance (q1 r1 q2 r2 : ℤ) : ℕ :=
  ((q1 - q2).natAbs + (q1 + r1 - q2 - r2).natAbs + (r1 - r2).natAbs) / 2

/-- `AntProtocolClient.get_neighbor_hexes`: the six neighbours in the client's
order right, left, bottom-right, top-left, top-right, bottom-left. -/
def get_neighbor_hexes (q r : ℤ) : List HexCoord :=
  [⟨q + 1, r⟩, ⟨q - 1, r⟩, ⟨q, r + 1⟩, ⟨q, r - 1⟩, ⟨q + 1, r - 1⟩, ⟨q - 1, r + 1⟩]

/-- `AntProtocolClient.get_tile`: first tile of the cached map with the given
coordinates. -/
def get_tile (map_tiles : List Tile) (q r : ℤ) : Option Tile :=
  map_tiles.find? (fun t => t.q = q && t.r = r)

/-- Python `range(lo, hi+1)` over integers, as used by the area loops. -/
def hexRange (lo hi : ℤ) : List ℤ :=
  (List.range (hi + 1 - lo).toNat).map (fun i : ℕ => lo + (i : ℤ))

theorem mem_hexRange {lo hi x : ℤ} : x ∈ hexRange lo hi ↔ lo ≤ x ∧ x ≤ hi := by
  simp only [hexRange, List.mem_map, List.mem_range]
  constructor
  · rintro ⟨i, hk, rfl⟩
    omega
  · rintro ⟨h1, h2⟩
    exact ⟨(x - lo).toNat, by omega, by omega⟩

theorem length_hexRange (lo hi : ℤ) : (hexRange lo hi).length = (hi + 1 - lo).toNat := by
  rw [hexRange, List.length_map, List.length_range]

/-- `HexUtils.get_hex_area`: the nested-range enumeration of the hex disk,
including the source's redundant distance filter. -/
def get_hex_area (center_q center_r radius : ℤ) : List (ℤ × ℤ) :=
  (hexRange (-radius) radius).flatMap (fun dq =>
    (hexRange (max (-radius) (-dq - radius)) (min radius (-dq + radius))).filterMap (fun dr =>
      if (hex_distance center_q center_r (center_q + dq) (center_r + dr) : ℤ) ≤ radius then
        some (center_q + dq, center_r + dr)
      else
        none))

theorem mem_get_hex_area {cq cr radius : ℤ} {p : ℤ × ℤ} :
    p ∈ get_hex_area cq cr radius ↔ (hex_distance cq cr p.1 p.2 : ℤ) ≤ radius := by
  simp only [get_hex_area, List.mem_flatMap, List.mem_filterMap, mem_hexRange,
    Option.ite_none_right_eq_some, Option.some.injEq]
  constructor
  · rintro ⟨dq, ⟨h1, h2⟩, dr, ⟨h3, h4⟩, h5, rfl⟩
    exact h5
  · intro h
    refine ⟨p.1 - cq, ⟨?_, ?_⟩, p.2 - cr, ⟨?_, ?_⟩, ?_, ?_⟩
    · simp only [hex_distance] at h; omega
    · simp only [hex_distance] at h; omega
    · simp only [hex_distance] at h; omega
    · simp only [hex_distance] at h; omega
    · have hq : cq + (p.1 - cq) = p.1 := by ring
      have hr : cr + (p.2 - cr) = p.2 := by ring
      rw [hq, hr]; exact h
    · have hq : cq + (p.1 - cq) = p.1 := by ring
      have hr : cr + (p.2 - cr) = p.2 := by ring
      rw [hq, hr]

theorem filterMap_ite_length {α β : Type} (p : α → Prop) [DecidablePred p] (f : α → β)
    (l : List α) (h : ∀ x ∈ l, p x) :
    (l.filterMap (fun x => if p x then some (f x) else none)).length = l.length := by
  induction l with
  | nil => rfl
  | cons a t ih =>
      rw [List.filterMap_cons, if_pos (h a (by simp))]
      simp only [List.length_cons]
      rw [ih (fun x hx => h x (by simp [hx]))]

theorem sum_map_add_const {α : Type} (l : List α) (f : α → ℕ) (c : ℕ) :
    (l.map (fun x => f x + c)).sum = (l.map f).sum + c * l.length := by
  induction l with
  | nil => simp
  | cons a t ih =>
      simp only [List.map_cons, List.sum_cons, List.length_cons, ih]
      ring

/-- Row length of the hex-area enumeration: the row at index `i` (so at offset
`dq = i - n`) holds `2n + 1 - |i - n|` hexes. -/
def areaProfile (n i : ℕ) : ℕ :=
  2 * n + 1 - ((i : ℤ) - (n : ℤ)).natAbs

theorem areaProfile_sum (n : ℕ) :
    ((List.range (2 * n + 1)).map (areaProfile n)).sum = 3 * n * n + 3 * n + 1 := by
  induction n with
  | zero => decide
  | succ n ih =>
      have hsplit : 2 * (n + 1) + 1 = (2 * n + 2) + 1 := by ring
      rw [hsplit, List.range_succ_eq_map, List.map_cons, List.sum_cons, List.map_map,
        List.range_succ, List.map_append, List.sum_append]
      have hcongr : (List.range (2 * n + 1)).map (areaProfile (n + 1) ∘ Nat.succ)
          = (List.range (2 * n + 1)).map (fun i => areaProfile n i + 2) := by
        apply List.map_congr_left
        intro i hi
        rw [List.mem_range] at hi
        simp only [Function.comp, areaProfile, Nat.succ_eq_add_one]
        omega
      rw [hcongr, sum_map_add_const, List.length_range]
      have h0 : areaProfile (n + 1) 0 = n + 2 := by
        simp only [areaProfile]
        omega
      have h2 : (areaProfile (n + 1) ∘ Nat.succ) (2 * n + 1) = n + 2 := by
        simp only [Function.comp, areaProfile, Nat.succ_eq_add_one]
        omega
      rw [h0, ih]
      simp only [List.map_cons, List.map_nil, List.sum_cons, List.sum_nil, h2]
      ring

theorem length_get_hex_area (cq cr : ℤ) (n : ℕ) :
    (get_hex_area cq cr (n : ℤ)).length = 3 * n * n + 3 * n + 1 := by
  rw [get_hex_area, List.length_flatMap]
  have houter : hexRange (-(n : ℤ)) (n : ℤ)
      = (List.range (2 * n + 1)).map (fun i : ℕ => -(n : ℤ) + (i : ℤ)) := by
    rw [hexRange]
    have htn : ((n : ℤ) + 1 - -(n : ℤ)).toNat = 2 * n + 1 := by omega
    rw [htn]
  rw [houter, List.map_map]
  have hcongr : (List.range (2 * n + 1)).map
        ((List.length ∘ fun dq =>
          (hexRange (max (-(n : ℤ)) (-dq - (n : ℤ))) (min (n : ℤ) (-dq + (n : ℤ)))).filterMap
            (fun dr =>
              if (hex_distance cq cr (cq + dq) (cr + dr) : ℤ) ≤ (n : ℤ) then
                some (cq + dq, cr + dr)
              else none)) ∘ fun i : ℕ => -(n : ℤ) + (i : ℤ))
      = (List.range (2 * n + 1)).map (areaProfile n) := by
    apply List.map_congr_left
    intro i hi
    rw [List.mem_range] at hi
    simp only [Function.comp]
    rw [filterMap_ite_length
      (fun dr => (hex_distance cq cr (cq + (-(n : ℤ) + (i : ℤ))) (cr + dr) : ℤ) ≤ (n : ℤ))
      (fun dr => (cq + (-(n : ℤ) + (i : ℤ)), cr + dr))]
    · rw [length_hexRange, areaProfile]
      omega
    · intro dr hdr
      rw [mem_hexRange] at hdr
      simp only [hex_distance]
      omega
  rw [hcongr, areaProfile_sum]

theorem get_hex_area_zero (cq cr : ℤ) : get_hex_area cq cr 0 = [(cq, cr)] := by
  have h1 : hexRange (-(0 : ℤ)) 0 = [0] := by
    simp only [hexRange]
    decide
  have h2 : hexRange (max (-(0 : ℤ)) (-(0 : ℤ) - 0)) (min (0 : ℤ) (-(0 : ℤ) + 0)) = [0] := by
    simp only [hexRange]
    decide
  rw [get_hex_area, h1]
  simp only [List.flatMap_cons, List.flatMap_nil, List.append_nil]
  rw [h2]
  simp [hex_distance]

/-- The loops of `AntProtocolClient._add_visible_hexes`: nested offset ranges
with the `abs(ds) <= radius` guard, collecting `(q+dq, r+dr)` pairs. -/
def vis_enum (q r radius : ℤ) : List (ℤ × ℤ) :=
  (hexRange (-radius) radius).flatMap (fun dq =>
    (hexRange (max (-radius) (-dq - radius)) (min radius (-dq + radius))).filterMap (fun dr =>
      if ((-dq - dr).natAbs : ℤ) ≤ radius then some (q + dq, r + dr) else none))

theorem mem_vis_enum {q r radius : ℤ} {p : ℤ × ℤ} :
    p ∈ vis_enum q r radius ↔ (hex_distance q r p.1 p.2 : ℤ) ≤ radius := by
  simp only [vis_enum, List.mem_flatMap, List.mem_filterMap, mem_hexRange,
    Option.ite_none_right_eq_some, Option.some.injEq]
  constructor
  · rintro ⟨dq, ⟨h1, h2⟩, dr, ⟨h3, h4⟩, h5, rfl⟩
    simp only [hex_distance]
    omega
  · intro h
    refine ⟨p.1 - q, ⟨?_, ?_⟩, p.2 - r, ⟨?_, ?_⟩, ?_, ?_⟩
    · simp only [hex_distance] at h; omega
    · simp only [hex_distance] at h; omega
    · simp only [hex_distance] at h; omega
    · simp only [hex_distance] at h; omega
    · simp only [hex_distance] at h; omega
    · have hq : q + (p.1 - q) = p.1 := by ring
      have hr : r + (p.2 - r) = p.2 := by ring
      rw [hq, hr]

/-- `AntProtocolClient._get_ant_vision_radius`: 1 for worker (0), 1 for
soldier (1), 4 for scout (2), 1 otherwise; `ant.get("type", 0)`. -/
def get_ant_vision_radius (ant : Ant) : ℤ :=
  let t := ant.type.getD 0
  if t = 0 then 1
  else if t = 1 then 1
  else if t = 2 then 4
  else 1

/-- `AntProtocolClient._add_visible_hexes`: add every enumerated hex to the
visibility set. -/
def add_visible_hexes (s : Finset (ℤ × ℤ)) (q r radius : ℤ) : Finset (ℤ × ℤ) :=
  s ∪ (vis_enum q r radius).toFinset

/-- The visibility rebuild of `_update_game_state`: start from an empty set,
add each ant's vision disk, then every `lastMove` waypoint of every ant. -/
def compute_visible (ants : List Ant) : Finset (ℤ × ℤ) :=
  ants.foldl
    (fun s ant => s ∪ ((ant.lastMove.getD []).map (fun c => (c.q, c.r))).toFinset)
    (ants.foldl
      (fun s ant => add_visible_hexes s ant.q ant.r (get_ant_vision_radius ant)) ∅)

/-- `AntProtocolClient._update_game_state`: refresh the cached lists from the
current arena response and rebuild the visibility set from scratch. -/
def update_game_state (st : ClientState) : ClientState :=
  match st.current_state with
  | none => st
  | some a =>
      { st with ants := a.ants, enemies := a.enemies, food := a.food, home := a.home,
                map_tiles := a.map, visible_tiles := compute_visible a.ants }

theorem mem_foldl_union {α β : Type} [DecidableEq β] (f : α → Finset β) (l : List α)
    (init : Finset β) (p : β) :
    p ∈ l.foldl (fun s x => s ∪ f x) init ↔ p ∈ init ∨ ∃ x ∈ l, p ∈ f x := by
  induction l generalizing init with
  | nil => simp
  | cons a t ih =>
      simp only [List.foldl_cons, ih, Finset.mem_union, List.mem_cons]
      constructor
      · rintro (( h | h) | ⟨x, hx, hpx⟩)
        · exact Or.inl h
        · exact Or.inr ⟨a, Or.inl rfl, h⟩
        · exact Or.inr ⟨x, Or.inr hx, hpx⟩
      · rintro (h | ⟨x, (rfl | hx), hpx⟩)
        · exact Or.inl (Or.inl h)
        · exact Or.inl (Or.inr hpx)
        · exact Or.inr ⟨x, hx, hpx⟩

/-- One step of the greedy walker in `AntProtocolClient.find_path`: move one
hex along the axis with the larger absolute delta; the tie goes to the `else`
branch, i.e. the r axis. -/
def next_step (cq cr tq tr : ℤ) : ℤ × ℤ :=
  if (tq - cq).natAbs > (tr - cr).natAbs then
    (cq + (if tq - cq > 0 then 1 else -1), cr)
  else
    (cq, cr + (if tr - cr > 0 then 1 else -1))

/-- The blocking-ant scan of `find_path`: some cached ant sits on the candidate
hex and has the mover's type (`ant.get("type", -1) == ant_type`). -/
def blocking_ant (ants : List Ant) (nq nr ant_type : ℤ) : Bool :=
  ants.any (fun a => a.q = nq && a.r = nr && a.type.getD (-1) = ant_type)

/-- The `while` loop of `AntProtocolClient.find_path`, with explicit fuel.
Each iteration either returns or appends one hex, and the ceiling check
`len(path) > 20` fires right after the append, so from a path of length `L`
at most `22 - L` iterations remain; `find_path_loop_fuel` below shows any fuel
of at least `22 - L` computes the loop's limit. -/
def find_path_loop (map_tiles : List Tile) (ants : List Ant) (tq tr ant_type : ℤ) :
    ℕ → ℤ → ℤ → List HexCoord → List HexCoord
  | 0, _, _, path => path
  | fuel + 1, cq, cr, path =>
    if cq = tq ∧ cr = tr then path
    else
      match get_tile map_tiles (next_step cq cr tq tr).1 (next_step cq cr tq tr).2 with
      | none => path
      | some tile =>
        if tile.type = 5 then path
        else if blocking_ant ants (next_step cq cr tq tr).1 (next_step cq cr tq tr).2 ant_type
          then path
        else
          if (path ++ [HexCoord.mk (next_step cq cr tq tr).1 (next_step cq cr tq tr).2]).length > 20 then
            path ++ [HexCoord.mk (next_step cq cr tq tr).1 (next_step cq cr tq tr).2]
          else
            find_path_loop map_tiles ants tq tr ant_type fuel
              (next_step cq cr tq tr).1 (next_step cq cr tq tr).2
              (path ++ [HexCoord.mk (next_step cq cr tq tr).1 (next_step cq cr tq tr).2])

/-- `AntProtocolClient.find_path`. -/
def find_path (map_tiles : List Tile) (ants : List Ant)
    (start_q start_r target_q target_r ant_type : ℤ) : List HexCoord :=
  find_path_loop map_tiles ants target_q target_r ant_type 22 start_q start_r []

theorem find_path_loop_fuel (mt : List Tile) (ants : List Ant) (tq tr ant_type : ℤ) :
    ∀ f1 f2 : ℕ, ∀ cq cr : ℤ, ∀ path : List HexCoord,
      path.length ≤ 20 → 22 - path.length ≤ f1 → 22 - path.length ≤ f2 →
      find_path_loop mt ants tq tr ant_type f1 cq cr path
        = find_path_loop mt ants tq tr ant_type f2 cq cr path := by
  intro f1
  induction f1 with
  | zero => intro f2 cq cr path hl h1 h2; omega
  | succ g ih =>
      intro f2 cq cr path hl h1 h2
      cases f2 with
      | zero => omega
      | succ h =>
          simp only [find_path_loop]
          split
          · rfl
          · split
            · rfl
            · split
              · rfl
              · split
                · rfl
                · split
                  · rfl
                  · apply ih
                    · simp only [List.length_append, List.length_cons, List.length_nil] at *
                      omega
                    · simp only [List.length_append, List.length_cons, List.length_nil] at *
                      omega
                    · simp only [List.length_append, List.length_cons, List.length_nil] at *
                      omega

/-- The ceiling-free variant of the walk (the loop without the
`len(path) > 20` break), used to settle the termination claim. -/
def find_path_free_loop (map_tiles : List Tile) (ants : List Ant) (tq tr ant_type : ℤ) :
    ℕ → ℤ → ℤ → List HexCoord → List HexCoord
  | 0, _, _, path => path
  | fuel + 1, cq, cr, path =>
    if cq = tq ∧ cr = tr then path
    else
      match get_tile map_tiles (next_step cq cr tq tr).1 (next_step cq cr tq tr).2 with
      | none => path
      | some tile =>
        if tile.type = 5 then path
        else if blocking_ant ants (next_step cq cr tq tr).1 (next_step cq cr tq tr).2 ant_type
          then path
        else
          find_path_free_loop map_tiles ants tq tr ant_type fuel
            (next_step cq cr tq tr).1 (next_step cq cr tq tr).2
            (path ++ [HexCoord.mk (next_step cq cr tq tr).1 (next_step cq cr tq tr).2])

/-- `|target_q - current_q| + |target_r - current_r|`, the sum of absolute
deltas driving the walk. -/
def walk_delta (cq cr tq tr : ℤ) : ℕ :=
  (tq - cq).natAbs + (tr - cr).natAbs

theorem next_step_delta (cq cr tq tr : ℤ) (h : ¬(cq = tq ∧ cr = tr)) :
    walk_delta (next_step cq cr tq tr).1 (next_step cq cr tq tr).2 tq tr
        = walk_delta cq cr tq tr - 1
      ∧ 1 ≤ walk_delta cq cr tq tr := by
  simp only [next_step, walk_delta]
  split_ifs <;> simp <;> omega

theorem next_step_dist (cq cr tq tr : ℤ) :
    hex_distance cq cr (next_step cq cr tq tr).1 (next_step cq cr tq tr).2 = 1 := by
  simp only [next_step, hex_distance]
  split_ifs <;> simp

/-- Two hexes one single-hex step apart. -/
def hex_step (a b : HexCoord) : Prop :=
  hex_distance a.q a.r b.q b.r = 1

theorem chain_snoc {α : Type} (R : α → α → Prop) (b : α) :
    ∀ (l : List α) (start : α), List.Chain R start l → R (l.getLast?.getD start) b →
      List.Chain R start (l ++ [b]) := by
  intro l
  induction l with
  | nil =>
      intro start _ h2
      exact List.Chain.cons (by simpa using h2) List.Chain.nil
  | cons x t ih =>
      intro start h1 h2
      cases h1 with
      | cons hx ht =>
          simp only [List.cons_append]
          refine List.Chain.cons hx (ih x ht ?_)
          cases t with
          | nil => simpa using h2
          | cons y t' => simpa [List.getLast?_cons_cons] using h2

theorem find_path_loop_chain (mt : List Tile) (ants : List Ant) (tq tr ant_type : ℤ)
    (start : HexCoord) :
    ∀ (fuel : ℕ) (cq cr : ℤ) (path : List HexCoord),
      List.Chain hex_step start path → path.getLast?.getD start = ⟨cq, cr⟩ →
      List.Chain hex_step start (find_path_loop mt ants tq tr ant_type fuel cq cr path) := by
  intro fuel
  induction fuel with
  | zero => intro cq cr path h1 _; exact h1
  | succ g ih =>
      intro cq cr path h1 h2
      simp only [find_path_loop]
      split
      · exact h1
      · split
        · exact h1
        · split
          · exact h1
          · split
            · exact h1
            · have hsnoc : List.Chain hex_step start
                  (path ++ [HexCoord.mk (next_step cq cr tq tr).1 (next_step cq cr tq tr).2]) := by
                refine chain_snoc _ _ path start h1 ?_
                rw [h2]
                exact next_step_dist cq cr tq tr
              split
              · exact hsnoc
              · apply ih
                · exact hsnoc
                · rw [List.getLast?_concat]
                  rfl

theorem find_path_loop_delta (mt : List Tile) (ants : List Ant) (tq tr ant_type : ℤ) (D : ℕ) :
    ∀ (fuel : ℕ) (cq cr : ℤ) (path : List HexCoord),
      walk_delta cq cr tq tr ≤ D →
      (∀ h ∈ path, walk_delta h.q h.r tq tr < D) →
      ∀ h ∈ find_path_loop mt ants tq tr ant_type fuel cq cr path,
        walk_delta h.q h.r tq tr < D := by
  intro fuel
  induction fuel with
  | zero => intro cq cr path _ hp; exact hp
  | succ g ih =>
      intro cq cr path hcur hp
      simp only [find_path_loop]
      split
      · exact hp
      · next hne =>
          have hstep := next_step_delta cq cr tq tr hne
          have hmem : ∀ h ∈ path ++ [HexCoord.mk (next_step cq cr tq tr).1
              (next_step cq cr tq tr).2], walk_delta h.q h.r tq tr < D := by
            intro h hm
            rcases List.mem_append.mp hm with hm | hm
            · exact hp h hm
            · have : h = HexCoord.mk (next_step cq cr tq tr).1 (next_step cq cr tq tr).2 := by
                simpa using hm
              subst this
              simp only [walk_delta] at *
              omega
          split
          · exact hp
          · split
            · exact hp
            · split
              · exact hp
              · split
                · exact hmem
                · apply ih
                  · simp only [walk_delta] at *
                    omega
                  · exact hmem

/-- A hex acceptable as a step of `find_path`: its tile is on the known map,
is not a rock, and no same-type friendly ant stands on it. -/
def path_ok (mt : List Tile) (ants : List Ant) (ant_type : ℤ) (h : HexCoord) : Prop :=
  (∃ t, get_tile mt h.q h.r = some t ∧ t.type ≠ 5)
    ∧ blocking_ant ants h.q h.r ant_type = false

theorem find_path_loop_ok (mt : List Tile) (ants : List Ant) (tq tr ant_type : ℤ) :
    ∀ (fuel : ℕ) (cq cr : ℤ) (path : List HexCoord),
      (∀ h ∈ path, path_ok mt ants ant_type h) →
      ∀ h ∈ find_path_loop mt ants tq tr ant_type fuel cq cr path,
        path_ok mt ants ant_type h := by
  intro fuel
  induction fuel with
  | zero => intro cq cr path hp; exact hp
  | succ g ih =>
      intro cq cr path hp
      simp only [find_path_loop]
      split
      · exact hp
      · split
        · exact hp
        · next tile heq =>
            split
            · exact hp
            · next hstone =>
                split
                · exact hp
                · next hblock =>
                    have hmem : ∀ h ∈ path ++ [HexCoord.mk (next_step cq cr tq tr).1
                        (next_step cq cr tq tr).2], path_ok mt ants ant_type h := by
                      intro h hm
                      rcases List.mem_append.mp hm with hm | hm
                      · exact hp h hm
                      · have : h = HexCoord.mk (next_step cq cr tq tr).1
                            (next_step cq cr tq tr).2 := by simpa using hm
                        subst this
                        refine ⟨⟨tile, heq, ?_⟩, ?_⟩
                        · simpa using hstone
                        · simpa using hblock
                    split
                    · exact hmem
                    · exact ih _ _ _ hmem

theorem find_path_loop_length (mt : List Tile) (ants : List Ant) (tq tr ant_type : ℤ) :
    ∀ (fuel : ℕ) (cq cr : ℤ) (path : List HexCoord),
      path.length ≤ 20 →
      (find_path_loop mt ants tq tr ant_type fuel cq cr path).length ≤ 21 := by
  intro fuel
  induction fuel with
  | zero =>
      intro cq cr path hl
      simp only [find_path_loop]
      omega
  | succ g ih =>
      intro cq cr path hl
      simp only [find_path_loop]
      split
      · omega
      · split
        · omega
        · split
          · omega
          · split
            · omega
            · split
              · simp only [List.length_append, List.length_cons, List.length_nil]
                omega
              · next hce =>
                  apply ih
                  simp only [List.length_append, List.length_cons, List.length_nil] at *
                  omega

theorem find_path_free_loop_stable (mt : List Tile) (ants : List Ant) (tq tr ant_type : ℤ) :
    ∀ (d : ℕ) (cq cr : ℤ), walk_delta cq cr tq tr = d →
      ∀ (f1 f2 : ℕ), d ≤ f1 → d ≤ f2 → ∀ path : List HexCoord,
        find_path_free_loop mt ants tq tr ant_type f1 cq cr path
          = find_path_free_loop mt ants tq tr ant_type f2 cq cr path := by
  intro d
  induction d with
  | zero =>
      intro cq cr hd f1 f2 _ _ path
      have htgt : cq = tq ∧ cr = tr := by
        simp only [walk_delta] at hd
        constructor <;> omega
      cases f1 with
      | zero =>
          cases f2 with
          | zero => rfl
          | succ b =>
              simp only [find_path_free_loop]
              rw [if_pos htgt]
      | succ a =>
          cases f2 with
          | zero =>
              simp only [find_path_free_loop]
              rw [if_pos htgt]
          | succ b =>
              simp only [find_path_free_loop]
              rw [if_pos htgt, if_pos htgt]
  | succ d ih =>
      intro cq cr hd f1 f2 h1 h2 path
      cases f1 with
      | zero => omega
      | succ a =>
          cases f2 with
          | zero => omega
          | succ b =>
              simp only [find_path_free_loop]
              split
              · rfl
              · next hne =>
                  obtain ⟨hs1, hs2⟩ := next_step_delta cq cr tq tr hne
                  split
                  · rfl
                  · split
                    · rfl
                    · split
                      · rfl
                      · apply ih
                        · omega
                        · omega
                        · omega

theorem find_path_free_loop_length (mt : List Tile) (ants : List Ant) (tq tr ant_type : ℤ) :
    ∀ (fuel : ℕ) (cq cr : ℤ) (path : List HexCoord),
      (find_path_free_loop mt ants tq tr ant_type fuel cq cr path).length
        ≤ path.length + walk_delta cq cr tq tr := by
  intro fuel
  induction fuel with
  | zero =>
      intro cq cr path
      simp only [find_path_free_loop]
      omega
  | succ g ih =>
      intro cq cr path
      simp only [find_path_free_loop]
      split
      · omega
      · next hne =>
          obtain ⟨hs1, hs2⟩ := next_step_delta cq cr tq tr hne
          split
          · omega
          · split
            · omega
            · split
              · omega
              · refine le_trans (ih _ _ _) ?_
                simp only [List.length_append, List.length_cons, List.length_nil]
                omega

theorem blocking_ant_eq_false_iff (ants : List Ant) (nq nr ant_type : ℤ) :
    blocking_ant ants nq nr ant_type = false
      ↔ ∀ a ∈ ants, ¬(a.q = nq ∧ a.r = nr ∧ a.type.getD (-1) = ant_type) := by
  simp only [blocking_ant, List.any_eq_false, Bool.and_eq_true, decide_eq_true_eq]
  constructor
  · intro h a ha hc
    exact h a ha ⟨⟨hc.1, hc.2.1⟩, hc.2.2⟩
  · intro h a ha hc
    exact h a ha ⟨hc.1.1, hc.1.2, hc.2⟩

/-- A 31-tile straight corridor along the q axis, used as a concrete map. -/
def straightMap : List Tile :=
  (List.range 31).map (fun i : ℕ => Tile.mk (i : ℤ) 0 0)

/-- C1 (amended): every path returned by `find_path` has at most 21 steps
(the `len(path) > 20` ceiling fires only after the 21st append). -/
theorem find_path_length_le (mt : List Tile) (ants : List Ant)
    (sq sr tq tr ant_type : ℤ) :
    (find_path mt ants sq sr tq tr ant_type).length ≤ 21 :=
  find_path_loop_length mt ants tq tr ant_type 22 sq sr [] (by simp)

/-- C1 counterexample: on a straight 31-tile corridor with no ants, walking
from (0,0) toward (30,0) returns a 21-step path, refuting the 20-step bound. -/
theorem find_path_length_counterexample :
    (find_path straightMap [] 0 0 30 0 0).length = 21
      ∧ ¬(find_path straightMap [] 0 0 30 0 0).length ≤ 20 := by
  decide

/-- C9: the returned path never contains the start hex, and every transition
(start to first hex, and each consecutive pair) is a single-hex step. -/
theorem find_path_excludes_start_and_steps (mt : List Tile) (ants : List Ant)
    (sq sr tq tr ant_type : ℤ) :
    HexCoord.mk sq sr ∉ find_path mt ants sq sr tq tr ant_type
      ∧ List.Chain hex_step ⟨sq, sr⟩ (find_path mt ants sq sr tq tr ant_type) := by
  constructor
  · intro hmem
    have hlt := find_path_loop_delta mt ants tq tr ant_type (walk_delta sq sr tq tr)
      22 sq sr [] (le_refl _) (by simp) _ hmem
    simp only at hlt
    exact absurd hlt (lt_irrefl _)
  · exact find_path_loop_chain mt ants tq tr ant_type ⟨sq, sr⟩ 22 sq sr []
      List.Chain.nil rfl

theorem find_path_excludes_start_and_steps_witness :
    HexCoord.mk 0 0 ∉ find_path straightMap [] 0 0 30 0 0
      ∧ List.Chain hex_step ⟨0, 0⟩ (find_path straightMap [] 0 0 30 0 0) :=
  find_path_excludes_start_and_steps straightMap [] 0 0 30 0 0

/-- C3: every hex of a returned path has a known, non-Stone tile and carries
no same-type friendly ant; and whenever the next candidate step has no known
tile, a Stone tile, or a same-type friendly ant on it, the loop returns the
path built so far (early termination). -/
theorem find_path_avoids_obstacles (mt : List Tile) (ants : List Ant)
    (sq sr tq tr ant_type : ℤ) :
    (∀ h ∈ find_path mt ants sq sr tq tr ant_type,
        (∃ t, get_tile mt h.q h.r = some t ∧ t.type ≠ 5)
          ∧ ∀ a ∈ ants, ¬(a.q = h.q ∧ a.r = h.r ∧ a.type.getD (-1) = ant_type))
      ∧ (∀ (fuel : ℕ) (cq cr : ℤ) (path : List HexCoord), ¬(cq = tq ∧ cr = tr) →
          (get_tile mt (next_step cq cr tq tr).1 (next_step cq cr tq tr).2 = none
            ∨ (∃ t, get_tile mt (next_step cq cr tq tr).1 (next_step cq cr tq tr).2 = some t
                ∧ t.type = 5)
            ∨ blocking_ant ants (next_step cq cr tq tr).1 (next_step cq cr tq tr).2 ant_type
                = true) →
          find_path_loop mt ants tq tr ant_type (fuel + 1) cq cr path = path) := by
  constructor
  · intro h hmem
    have hok := find_path_loop_ok mt ants tq tr ant_type 22 sq sr [] (by simp) h hmem
    exact ⟨hok.1, (blocking_ant_eq_false_iff ants h.q h.r ant_type).mp hok.2⟩
  · intro fuel cq cr path hne hbad
    simp only [find_path_loop]
    rw [if_neg hne]
    split
    · rfl
    · next tile heq =>
        rcases hbad with hbad | ⟨t, ht, ht5⟩ | hbad
        · rw [heq] at hbad
          cases hbad
        · rw [heq] at ht
          injection ht with ht
          subst ht
          rw [if_pos ht5]
        · by_cases h5 : tile.type = 5
          · rw [if_pos h5]
          · rw [if_neg h5, if_pos hbad]

/-- C10: each accepted step of the greedy walk decreases the delta sum
`|tq - cq| + |tr - cr|` by exactly 1, so the ceiling-free walk is insensitive
to any fuel of at least the initial delta sum and returns a path no longer
than that sum: the loop terminates even without the 20-step ceiling. -/
theorem find_path_walk_terminates :
    (∀ cq cr tq tr : ℤ, ¬(cq = tq ∧ cr = tr) →
        walk_delta (next_step cq cr tq tr).1 (next_step cq cr tq tr).2 tq tr
            = walk_delta cq cr tq tr - 1
          ∧ 1 ≤ walk_delta cq cr tq tr)
      ∧ (∀ (mt : List Tile) (ants : List Ant) (sq sr tq tr ant_type : ℤ) (fuel : ℕ),
          walk_delta sq sr tq tr ≤ fuel →
          find_path_free_loop mt ants tq tr ant_type fuel sq sr []
            = find_path_free_loop mt ants tq tr ant_type (walk_delta sq sr tq tr) sq sr [])
      ∧ (∀ (mt : List Tile) (ants : List Ant) (sq sr tq tr ant_type : ℤ) (fuel : ℕ),
          (find_path_free_loop mt ants tq tr ant_type fuel sq sr []).length
            ≤ walk_delta sq sr tq tr) := by
  refine ⟨next_step_delta, ?_, ?_⟩
  · intro mt ants sq sr tq tr ant_type fuel hf
    exact find_path_free_loop_stable mt ants tq tr ant_type (walk_delta sq sr tq tr)
      sq sr rfl fuel _ hf (le_refl _) []
  · intro mt ants sq sr tq tr ant_type fuel
    simpa using find_path_free_loop_length mt ants tq tr ant_type fuel sq sr []

theorem find_path_walk_terminates_witness :
    (walk_delta (next_step 0 0 3 0).1 (next_step 0 0 3 0).2 3 0 = walk_delta 0 0 3 0 - 1
        ∧ 1 ≤ walk_delta 0 0 3 0)
      ∧ find_path_free_loop [] [] 3 0 0 99 0 0 []
          = find_path_free_loop [] [] 3 0 0 (walk_delta 0 0 3 0) 0 0 []
      ∧ (find_path_free_loop [] [] 3 0 0 99 0 0 []).length ≤ walk_delta 0 0 3 0 :=
  ⟨find_path_walk_terminates.1 0 0 3 0 (by decide),
    find_path_walk_terminates.2.1 [] [] 0 0 3 0 0 99 (by decide),
    find_path_walk_terminates.2.2 [] [] 0 0 3 0 0 99⟩

theorem find_path_avoids_obstacles_witness :
    ((∃ t, get_tile straightMap (1 : ℤ) (0 : ℤ) = some t ∧ t.type ≠ 5)
        ∧ ∀ a ∈ ([] : List Ant), ¬(a.q = (1 : ℤ) ∧ a.r = (0 : ℤ) ∧ a.type.getD (-1) = 0))
      ∧ find_path_loop straightMap [] 30 0 0 (0 + 1) 50 0 [] = [] := by
  constructor
  · exact (find_path_avoids_obstacles straightMap [] 0 0 30 0 0).1
      ⟨1, 0⟩ (by decide)
  · exact (find_path_avoids_obstacles straightMap [] 0 0 30 0 0).2 0 50 0 []
      (by decide) (Or.inl (by decide))

theorem update_game_state_some (st : ClientState) (a : Arena)
    (h : st.current_state = some a) :
    update_game_state st
      = { st with ants := a.ants, enemies := a.enemies, food := a.food, home := a.home,
                  map_tiles := a.map, visible_tiles := compute_visible a.ants } := by
  unfold update_game_state
  rw [h]

theorem mem_compute_visible (ants : List Ant) (p : ℤ × ℤ) :
    p ∈ compute_visible ants ↔
      (∃ ant ∈ ants, (hex_distance ant.q ant.r p.1 p.2 : ℤ) ≤ get_ant_vision_radius ant)
        ∨ ∃ ant ∈ ants, ∃ c ∈ ant.lastMove.getD [], p = (c.q, c.r) := by
  rw [compute_visible, mem_foldl_union]
  simp only [add_visible_hexes]
  rw [mem_foldl_union]
  simp only [Finset.not_mem_empty, false_or, List.mem_toFinset, mem_vis_enum,
    List.mem_map]
  constructor
  · rintro (⟨x, hx, hpx⟩ | ⟨x, hx, c, hc, rfl⟩)
    · exact Or.inl ⟨x, hx, hpx⟩
    · exact Or.inr ⟨x, hx, c, hc, rfl⟩
  · rintro (⟨x, hx, hpx⟩ | ⟨x, hx, c, hc, rfl⟩)
    · exact Or.inl ⟨x, hx, hpx⟩
    · exact Or.inr ⟨x, hx, c, hc, rfl⟩

/-- C7: after a state update the visibility set is exactly the union, over all
friendly ants, of the hexes within the ant's type-determined vision radius
(1 for worker, 1 for soldier, 4 for scout) of the ant's position, together
with every waypoint of any ant's `lastMove` path; and it depends on nothing
but the arena snapshot. -/
theorem update_game_state_visible (st : ClientState) (a : Arena)
    (h : st.current_state = some a) :
    (∀ p : ℤ × ℤ,
        p ∈ (update_game_state st).visible_tiles ↔
          (∃ ant ∈ a.ants,
              (hex_distance ant.q ant.r p.1 p.2 : ℤ) ≤ get_ant_vision_radius ant)
            ∨ ∃ ant ∈ a.ants, ∃ c ∈ ant.lastMove.getD [], p = (c.q, c.r))
      ∧ (∀ ant : Ant,
          (ant.type.getD 0 = 0 → get_ant_vision_radius ant = 1)
            ∧ (ant.type.getD 0 = 1 → get_ant_vision_radius ant = 1)
            ∧ (ant.type.getD 0 = 2 → get_ant_vision_radius ant = 4))
      ∧ ∀ st' : ClientState, st'.current_state = some a →
          (update_game_state st).visible_tiles = (update_game_state st').visible_tiles := by
  refine ⟨?_, ?_, ?_⟩
  · intro p
    rw [update_game_state_some st a h]
    exact mem_compute_visible a.ants p
  · intro ant
    refine ⟨?_, ?_, ?_⟩ <;> (intro ht; simp [get_ant_vision_radius, ht])
  · intro st' h'
    rw [update_game_state_some st a h, update_game_state_some st' a h']

/-- A one-scout arena used to instantiate the visibility theorem. -/
def demoArena : Arena :=
  { ants := [{ id := "s1", q := 0, r := 0, type := some 2, food := none, move := none,
               lastMove := some [⟨10, 10⟩] }],
    enemies := [], food := [], home := [], map := [], spot := none }

/-- A client state holding `demoArena` as the current snapshot. -/
def demoState : ClientState :=
  { current_state := some demoArena, ants := [], enemies := [], food := [], home := [],
    map_tiles := [], visible_tiles := ∅ }

theorem update_game_state_visible_witness :
    (∀ p : ℤ × ℤ,
        p ∈ (update_game_state demoState).visible_tiles ↔
          (∃ ant ∈ demoArena.ants,
              (hex_distance ant.q ant.r p.1 p.2 : ℤ) ≤ get_ant_vision_radius ant)
            ∨ ∃ ant ∈ demoArena.ants, ∃ c ∈ ant.lastMove.getD [], p = (c.q, c.r))
      ∧ (∀ ant : Ant,
          (ant.type.getD 0 = 0 → get_ant_vision_radius ant = 1)
            ∧ (ant.type.getD 0 = 1 → get_ant_vision_radius ant = 1)
            ∧ (ant.type.getD 0 = 2 → get_ant_vision_radius ant = 4))
      ∧ ∀ st' : ClientState, st'.current_state = some demoArena →
          (update_game_state demoState).visible_tiles
            = (update_game_state st').visible_tiles :=
  update_game_state_visible demoState demoArena rfl

/-- C8: the nested-offset-range enumeration of `get_hex_area` yields exactly
the hexes at distance at most `n` from the centre, `get_hex_area h 0 = [h]`,
and the enumeration has exactly `1 + 3n(n+1)` elements. -/
theorem get_hex_area_spec (cq cr : ℤ) (n : ℕ) :
    (∀ p : ℤ × ℤ, p ∈ get_hex_area cq cr (n : ℤ) ↔ hex_distance cq cr p.1 p.2 ≤ n)
      ∧ get_hex_area cq cr 0 = [(cq, cr)]
      ∧ (get_hex_area cq cr (n : ℤ)).length = 1 + 3 * n * (n + 1) := by
  refine ⟨?_, get_hex_area_zero cq cr, ?_⟩
  · intro p
    rw [mem_get_hex_area]
    exact Nat.cast_le
  · rw [length_get_hex_area]
    ring

/-- `AntProtocolClient.is_visible`. -/
def is_visible (visible : Finset (ℤ × ℤ)) (q r : ℤ) : Bool :=
  (q, r) ∈ visible

/-- One iteration of the neighbour scan of `_explore`: `acc` carries Python's
`(min_distance, closest_unexplored)` with `None` for `float('inf')`; any
non-visible neighbour has candidate distance 1. -/
def scan_step (visible : Finset (ℤ × ℤ)) (acc : Option ℕ × Option HexCoord) (n : HexCoord) :
    Option ℕ × Option HexCoord :=
  if ¬ is_visible visible n.q n.r then
    match acc.1 with
    | none => (some 1, some n)
    | some m => if 1 < m then (some 1, some n) else acc
  else acc

/-- The neighbour scan of `_explore`. -/
def explore_scan (visible : Finset (ℤ × ℤ)) (q r : ℤ) : Option ℕ × Option HexCoord :=
  (get_neighbor_hexes q r).foldl (scan_step visible) (none, none)

/-- `_explore`'s target: the scanned `closest_unexplored`, or the first
neighbour (`directions[0]`) as the fallback. -/
def explore_target (visible : Finset (ℤ × ℤ)) (q r : ℤ) : HexCoord :=
  match (explore_scan visible q r).2 with
  | some n => n
  | none => (get_neighbor_hexes q r).headI

theorem scan_absorb (vis : Finset (ℤ × ℤ)) (c : HexCoord) :
    ∀ l : List HexCoord, l.foldl (scan_step vis) (some 1, some c) = (some 1, some c) := by
  intro l
  induction l with
  | nil => rfl
  | cons n t ih =>
      have hstep : scan_step vis (some 1, some c) n = (some 1, some c) := by
        simp only [scan_step]
        split
        · norm_num
        · rfl
      rw [List.foldl_cons, hstep, ih]

theorem scan_eq_find (vis : Finset (ℤ × ℤ)) :
    ∀ l : List HexCoord,
      (l.foldl (scan_step vis) (none, none)).2
        = l.find? (fun n => ¬ is_visible vis n.q n.r) := by
  intro l
  induction l with
  | nil => rfl
  | cons n t ih =>
      rw [List.foldl_cons, List.find?_cons]
      by_cases hv : is_visible vis n.q n.r
      · have h1 : scan_step vis (none, none) n = (none, none) := by
          simp [scan_step, hv]
        rw [h1, ih]
        simp [hv]
      · have h1 : scan_step vis (none, none) n = (some 1, some n) := by
          simp [scan_step, hv]
        rw [h1, scan_absorb]
        simp [hv]

theorem explore_target_eq (vis : Finset (ℤ × ℤ)) (q r : ℤ) :
    explore_target vis q r
      = ((get_neighbor_hexes q r).find? (fun n => ¬ is_visible vis n.q n.r)).getD
          ⟨q + 1, r⟩ := by
  rw [explore_target, explore_scan, scan_eq_find]
  cases h : (get_neighbor_hexes q r).find? (fun n => ¬ is_visible vis n.q n.r) with
  | none => rfl
  | some n => rfl

/-- `_find_best_food_target`'s value table `{3: 3, 2: 2, 1: 1}.get(type, 0)`. -/
def food_scores (t : ℤ) : ℚ :=
  if t = 3 then 3 else if t = 2 then 2 else if t = 1 then 1 else 0

/-- The score `food_scores.get(type, 0) / (distance + 1)` of one food item as
seen from `(cq, cr)`. -/
def food_score (cq cr : ℤ) (f : Food) : ℚ :=
  food_scores f.type / ((hex_distance cq cr f.q f.r : ℚ) + 1)

/-- One iteration of the `_find_best_food_target` loop: skip exhausted food,
keep the strictly better scorer. -/
def food_step (cq cr : ℤ) (acc : ℚ × Option Food) (f : Food) : ℚ × Option Food :=
  if f.amount ≤ 0 then acc
  else if acc.1 < food_score cq cr f then (food_score cq cr f, some f) else acc

/-- `AntProtocolClient._find_best_food_target`. -/
def find_best_food_target (food : List Food) (cq cr : ℤ) : Option Food :=
  if food.isEmpty then none
  else (food.foldl (food_step cq cr) (-1, none)).2

/-- `AntProtocolClient.get_enemies_near`. -/
def get_enemies_near (enemies : List Enemy) (q r : ℤ) (radius : ℕ) : List Enemy :=
  enemies.filter (fun e => hex_distance q r e.q e.r ≤ radius)

/-- Python's `min(enemies, key=distance)`: first minimum of a non-empty list. -/
def min_by_dist (q r : ℤ) : List Enemy → Option Enemy
  | [] => none
  | h :: t => some (t.foldl
      (fun best e =>
        if hex_distance q r e.q e.r < hex_distance q r best.q best.r then e else best) h)

/-- The six fixed patrol points of `_patrol`. -/
def patrol_points (home_q home_r : ℤ) : List HexCoord :=
  [⟨home_q + 2, home_r⟩, ⟨home_q + 1, home_r + 1⟩, ⟨home_q - 1, home_r + 1⟩,
   ⟨home_q - 2, home_r⟩, ⟨home_q - 1, home_r - 1⟩, ⟨home_q + 1, home_r - 1⟩]

/-- Python's `min(patrol_points, key=distance)`. -/
def min_point_by_dist (q r : ℤ) : List HexCoord → Option HexCoord
  | [] => none
  | h :: t => some (t.foldl
      (fun best p =>
        if hex_distance q r p.q p.r < hex_distance q r best.q best.r then p else best) h)

/-- `AntProtocolClient._explore`: path toward the explore target; a move is
appended only when the path is non-empty. -/
def explore_move (st : ClientState) (ant : Ant) (ant_type : ℤ) : Option Move :=
  let t := explore_target st.visible_tiles ant.q ant.r
  let p := find_path st.map_tiles st.ants ant.q ant.r t.q t.r ant_type
  if p = [] then none else some ⟨ant.id, p⟩

/-- `AntProtocolClient._patrol`. -/
def patrol_move (st : ClientState) (ant : Ant) (ant_type home_q home_r : ℤ) : Option Move :=
  match min_point_by_dist ant.q ant.r (patrol_points home_q home_r) with
  | none => none
  | some cp =>
      let p := find_path st.map_tiles st.ants ant.q ant.r cp.q cp.r ant_type
      if p = [] then none else some ⟨ant.id, p⟩

/-- The per-ant body of `AntProtocolClient.make_decisions`; each ant
contributes at most one move. -/
def decide_ant (st : ClientState) (home_q home_r : ℤ) (ant : Ant) : Option Move :=
  if 0 < (ant.move.getD []).length then none
  else
    if ant.type.getD 0 = 0 then
      match find_best_food_target st.food ant.q ant.r with
      | some bf =>
          let p := find_path st.map_tiles st.ants ant.q ant.r bf.q bf.r (ant.type.getD 0)
          if p = [] then none else some ⟨ant.id, p⟩
      | none =>
          if (0 : ℤ) < (match ant.food with | some fs => fs.amount | none => 0) then
            let p := find_path st.map_tiles st.ants ant.q ant.r home_q home_r (ant.type.getD 0)
            if p = [] then none else some ⟨ant.id, p⟩
          else explore_move st ant (ant.type.getD 0)
    else if ant.type.getD 0 = 1 then
      match get_enemies_near st.enemies ant.q ant.r 2 with
      | [] => patrol_move st ant (ant.type.getD 0) home_q home_r
      | e :: es =>
          match min_by_dist ant.q ant.r (e :: es) with
          | none => none
          | some closest =>
              let p := find_path st.map_tiles st.ants ant.q ant.r closest.q closest.r
                (ant.type.getD 0)
              if p = [] then none else some ⟨ant.id, p⟩
    else if ant.type.getD 0 = 2 then explore_move st ant (ant.type.getD 0)
    else none

/-- `AntProtocolClient.make_decisions`: home from `spot`, then one optional
move per cached ant, in order. -/
def make_decisions (st : ClientState) : List Move :=
  match st.current_state with
  | none => []
  | some a =>
      st.ants.filterMap (decide_ant st (a.spot.getD ⟨0, 0⟩).q (a.spot.getD ⟨0, 0⟩).r)

/-- C2 (amended): the explore sub-policy targets the first neighbour, in the
client's fixed order `(+1,0),(-1,0),(0,+1),(0,-1),(+1,-1),(-1,+1)`, that is
not in the visibility set, falling back to the first neighbour `(q+1, r)`
when all six are visible; and the engine runs exactly this sub-policy for any
scout with no queued move, and for any worker with no queued move, no food
target and nothing carried. -/
theorem explore_first_neighbor (vis : Finset (ℤ × ℤ)) (q r : ℤ) :
    get_neighbor_hexes q r
        = [⟨q + 1, r⟩, ⟨q - 1, r⟩, ⟨q, r + 1⟩, ⟨q, r - 1⟩, ⟨q + 1, r - 1⟩, ⟨q - 1, r + 1⟩]
      ∧ explore_target vis q r
          = ((get_neighbor_hexes q r).find? (fun n => ¬ is_visible vis n.q n.r)).getD
              ⟨q + 1, r⟩
      ∧ (∀ (st : ClientState) (hq hr : ℤ) (ant : Ant),
          (ant.move.getD []).length = 0 → ant.type.getD 0 = 2 →
          decide_ant st hq hr ant = explore_move st ant 2)
      ∧ (∀ (st : ClientState) (hq hr : ℤ) (ant : Ant),
          (ant.move.getD []).length = 0 → ant.type.getD 0 = 0 →
          find_best_food_target st.food ant.q ant.r = none →
          (match ant.food with | some fs => fs.amount | none => (0 : ℤ)) ≤ 0 →
          decide_ant st hq hr ant = explore_move st ant 0) := by
  refine ⟨rfl, explore_target_eq vis q r, ?_, ?_⟩
  · intro st hq hr ant hmv hty
    simp only [decide_ant, hmv, hty]
    norm_num
  · intro st hq hr ant hmv hty hfood hcarry
    simp only [decide_ant, hmv, hty, hfood]
    have hc : ¬ ((0 : ℤ) < (match ant.food with | some fs => fs.amount | none => (0 : ℤ))) := by
      omega
    rw [if_pos trivial, if_neg hc]
    norm_num

/-- The neighbour order the spec asserts for the explore scan (the HexMath
order `(+1,0),(+1,-1),(0,-1),(-1,0),(-1,+1),(0,+1)`); written from the spec's
words for comparison against the source's `get_neighbor_hexes`. -/
def neighbors_spec_order (q r : ℤ) : List HexCoord :=
  [⟨q + 1, r⟩, ⟨q + 1, r - 1⟩, ⟨q, r - 1⟩, ⟨q - 1, r⟩, ⟨q - 1, r + 1⟩, ⟨q, r + 1⟩]

/-- The explore target the spec's wording implies: first non-visible
neighbour in `neighbors_spec_order`, else the first of that order. -/
def explore_target_spec (visible : Finset (ℤ × ℤ)) (q r : ℤ) : HexCoord :=
  ((neighbors_spec_order q r).find? (fun n => ¬ is_visible visible n.q n.r)).getD
    ⟨q + 1, r⟩

/-- C2 counterexample: with only `(1,0)` visible, the code targets `(-1,0)`
(second neighbour in the client's order) while the spec's claimed scan order
would target `(1,-1)`. -/
theorem explore_order_counterexample :
    explore_target {((1 : ℤ), (0 : ℤ))} 0 0 = ⟨-1, 0⟩
      ∧ explore_target_spec {((1 : ℤ), (0 : ℤ))} 0 0 = ⟨1, -1⟩
      ∧ explore_target {((1 : ℤ), (0 : ℤ))} 0 0
          ≠ explore_target_spec {((1 : ℤ), (0 : ℤ))} 0 0 := by
  decide

/-- A scout ant with no queued move, for instantiating the explore theorem. -/
def demoScout : Ant :=
  { id := "s1", q := 0, r := 0, type := some 2, food := none, move := none,
    lastMove := none }

theorem explore_first_neighbor_witness :
    explore_target (∅ : Finset (ℤ × ℤ)) 0 0
        = ((get_neighbor_hexes 0 0).find?
            (fun n => ¬ is_visible (∅ : Finset (ℤ × ℤ)) n.q n.r)).getD ⟨1, 0⟩
      ∧ decide_ant demoState 0 0 demoScout = explore_move demoState demoScout 2 :=
  ⟨by
    have h := (explore_first_neighbor (∅ : Finset (ℤ × ℤ)) 0 0).2.1
    simpa using h,
   (explore_first_neighbor (∅ : Finset (ℤ × ℤ)) 0 0).2.2.1 demoState 0 0 demoScout
     (by decide) (by decide)⟩

theorem food_score_nonneg (cq cr : ℤ) (f : Food) : 0 ≤ food_score cq cr f := by
  unfold food_score food_scores
  apply div_nonneg
  · split_ifs <;> norm_num
  · positivity

/-- Invariant of the `_find_best_food_target` loop over the foods `seen` so
far: either nothing positive was seen and the accumulator is still
`(-1, None)`, or the accumulator holds the first positive-amount food whose
score every other positive-amount seen food fails to beat. -/
def FoodAcc (cq cr : ℤ) (seen : List Food) (acc : ℚ × Option Food) : Prop :=
  (acc = (-1, none) ∧ ∀ f ∈ seen, ¬ 0 < f.amount)
    ∨ (∃ b l1 l2, seen = l1 ++ b :: l2 ∧ acc = (food_score cq cr b, some b) ∧ 0 < b.amount
        ∧ (∀ f ∈ l1, 0 < f.amount → food_score cq cr f < food_score cq cr b)
        ∧ (∀ f ∈ seen, 0 < f.amount → food_score cq cr f ≤ food_score cq cr b))

theorem food_fold_inv (cq cr : ℤ) :
    ∀ (l seen : List Food) (acc : ℚ × Option Food),
      FoodAcc cq cr seen acc → FoodAcc cq cr (seen ++ l) (l.foldl (food_step cq cr) acc) := by
  intro l
  induction l with
  | nil => intro seen acc h; simpa using h
  | cons f t ih =>
      intro seen acc h
      have hstep : FoodAcc cq cr (seen ++ [f]) (food_step cq cr acc f) := by
        unfold food_step
        by_cases hamt : f.amount ≤ 0
        · rw [if_pos hamt]
          rcases h with ⟨hacc, hnone⟩ | ⟨b, l1, l2, hseen, hacc, hbpos, hblt, hble⟩
          · left
            refine ⟨hacc, ?_⟩
            intro x hx
            rcases List.mem_append.mp hx with hx | hx
            · exact hnone x hx
            · have hxf : x = f := by simpa using hx
              subst hxf; omega
          · right
            refine ⟨b, l1, l2 ++ [f], by rw [hseen]; simp, hacc, hbpos, hblt, ?_⟩
            intro x hx
            rcases List.mem_append.mp hx with hx | hx
            · exact hble x hx
            · have hxf : x = f := by simpa using hx
              subst hxf
              exact fun hpos => absurd hpos (by omega)
        · rw [if_neg hamt]
          have hfpos : 0 < f.amount := by omega
          by_cases hlt2 : acc.1 < food_score cq cr f
          · rw [if_pos hlt2]
            have hall : ∀ x ∈ seen, 0 < x.amount →
                food_score cq cr x < food_score cq cr f := by
              intro x hx hxpos
              rcases h with ⟨hacc, hnone⟩ | ⟨b, l1, l2, hseen, hacc, hbpos, hblt, hble⟩
              · exact absurd hxpos (hnone x hx)
              · have hxb := hble x hx hxpos
                have hacc1 : acc.1 = food_score cq cr b := by rw [hacc]
                calc food_score cq cr x ≤ food_score cq cr b := hxb
                  _ = acc.1 := hacc1.symm
                  _ < food_score cq cr f := hlt2
            right
            refine ⟨f, seen, [], by simp, rfl, hfpos, hall, ?_⟩
            intro x hx hxpos
            rcases List.mem_append.mp hx with hx | hx
            · exact le_of_lt (hall x hx hxpos)
            · have hxf : x = f := by simpa using hx
              subst hxf
              exact le_refl _
          · rw [if_neg hlt2]
            have hge : food_score cq cr f ≤ acc.1 := le_of_not_lt hlt2
            rcases h with ⟨hacc, hnone⟩ | ⟨b, l1, l2, hseen, hacc, hbpos, hblt, hble⟩
            · exfalso
              have h0 := food_score_nonneg cq cr f
              rw [hacc] at hge
              simp only at hge
              linarith
            · right
              refine ⟨b, l1, l2 ++ [f], by rw [hseen]; simp, hacc, hbpos, hblt, ?_⟩
              intro x hx
              rcases List.mem_append.mp hx with hx | hx
              · exact hble x hx
              · have hxf : x = f := by simpa using hx
                subst hxf
                intro _
                have hacc1 : acc.1 = food_score cq cr b := by rw [hacc]
                rw [hacc1] at hge
                exact hge
      rw [List.foldl_cons]
      have h2 := ih (seen ++ [f]) (food_step cq cr acc f) hstep
      simpa using h2

/-- C4 (amended): whenever some visible food has positive amount, the worker
food targeter returns the first positive-amount food whose score
`food_scores[type] / (distance + 1)` no other positive-amount food strictly
exceeds (first-seen wins ties); in the spec's scenario the nectar at (2,0)
wins over the apple at (1,0); and a worker with no queued move and a food
target paths toward exactly that target. -/
theorem scenario_food_eq :
    find_best_food_target [⟨2, 0, 3, 5⟩, ⟨1, 0, 1, 5⟩] 0 0 = some ⟨2, 0, 3, 5⟩ := by
  have h1 : hex_distance 0 0 2 0 = 2 := by decide
  have h2 : hex_distance 0 0 1 0 = 1 := by decide
  simp only [find_best_food_target, List.isEmpty, List.foldl, food_step, food_score,
    food_scores, h1, h2]
  norm_num

theorem best_food_target_spec :
    (∀ (food : List Food) (cq cr : ℤ), (∃ f ∈ food, 0 < f.amount) →
        ∃ b l1 l2, find_best_food_target food cq cr = some b
          ∧ food = l1 ++ b :: l2 ∧ 0 < b.amount
          ∧ (∀ f ∈ food, 0 < f.amount → food_score cq cr f ≤ food_score cq cr b)
          ∧ (∀ f ∈ l1, 0 < f.amount → food_score cq cr f < food_score cq cr b))
      ∧ find_best_food_target [⟨2, 0, 3, 5⟩, ⟨1, 0, 1, 5⟩] 0 0 = some ⟨2, 0, 3, 5⟩
      ∧ (∀ (st : ClientState) (hq hr : ℤ) (ant : Ant) (bf : Food),
          (ant.move.getD []).length = 0 → ant.type.getD 0 = 0 →
          find_best_food_target st.food ant.q ant.r = some bf →
          decide_ant st hq hr ant
            = (if find_path st.map_tiles st.ants ant.q ant.r bf.q bf.r 0 = [] then none
               else some ⟨ant.id, find_path st.map_tiles st.ants ant.q ant.r bf.q bf.r 0⟩)) := by
  refine ⟨?_, scenario_food_eq, ?_⟩
  · rintro food cq cr ⟨f0, hf0, hf0pos⟩
    have hne : food.isEmpty = false := by
      cases food with
      | nil => cases hf0
      | cons a t => rfl
    have hinv := food_fold_inv cq cr food [] (-1, none) (Or.inl ⟨rfl, by simp⟩)
    simp only [List.nil_append] at hinv
    rcases hinv with ⟨_, hnone⟩ | ⟨b, l1, l2, hseen, hacc, hbpos, hblt, hble⟩
    · exact absurd hf0pos (hnone f0 hf0)
    · refine ⟨b, l1, l2, ?_, hseen, hbpos, hble, hblt⟩
      unfold find_best_food_target
      rw [if_neg (by simp [hne]), hacc]
  · intro st hq hr ant bf hmv hty hbf
    simp only [decide_ant, hmv, hty, hbf]
    norm_num

/-- C4 counterexample: the food list holds one apple with `amount = 0`; food
exists, yet the targeter returns no food target at all (zero-amount food is
skipped before scoring), so "when food exists the engine picks the food
target maximizing score" fails as stated. -/
theorem best_food_zero_counterexample :
    find_best_food_target [⟨0, 1, 1, 0⟩] 0 0 = none
      ∧ ([⟨0, 1, 1, 0⟩] : List Food) ≠ [] := by
  decide

/-- A worker holding nothing, next to the two scenario foods. -/
def demoWorker : Ant :=
  { id := "w1", q := 0, r := 0, type := some 0, food := none, move := none,
    lastMove := none }

/-- A client state with the scenario foods and no map (so paths are empty). -/
def demoFoodState : ClientState :=
  { current_state := some demoArena, ants := [demoWorker], enemies := [],
    food := [⟨2, 0, 3, 5⟩, ⟨1, 0, 1, 5⟩], home := [], map_tiles := [],
    visible_tiles := ∅ }

theorem best_food_target_spec_witness :
    (∃ b l1 l2,
        find_best_food_target [⟨2, 0, 3, 5⟩, ⟨1, 0, 1, 5⟩] 0 0 = some b
          ∧ [(⟨2, 0, 3, 5⟩ : Food), ⟨1, 0, 1, 5⟩] = l1 ++ b :: l2 ∧ 0 < b.amount
          ∧ (∀ f ∈ [(⟨2, 0, 3, 5⟩ : Food), ⟨1, 0, 1, 5⟩], 0 < f.amount →
              food_score 0 0 f ≤ food_score 0 0 b)
          ∧ (∀ f ∈ l1, 0 < f.amount → food_score 0 0 f < food_score 0 0 b))
      ∧ decide_ant demoFoodState 0 0 demoWorker
          = (if find_path demoFoodState.map_tiles demoFoodState.ants 0 0 2 0 0 = [] then none
             else some ⟨"w1", find_path demoFoodState.map_tiles demoFoodState.ants 0 0 2 0 0⟩) :=
  ⟨best_food_target_spec.1 [⟨2, 0, 3, 5⟩, ⟨1, 0, 1, 5⟩] 0 0
      ⟨⟨2, 0, 3, 5⟩, by simp, by norm_num⟩,
    best_food_target_spec.2.2 demoFoodState 0 0 demoWorker ⟨2, 0, 3, 5⟩
      (by decide) (by decide) scenario_food_eq⟩

/-- `self.request_interval = 0.34`. -/
def request_interval : ℚ := 34 / 100

/-- `AntProtocolClient._rate_limit`, over an abstract clock: from the recorded
`last_request_time` and the current time `now`, compute the sleep duration
(`request_interval - elapsed` when the elapsed time is shorter than the
interval, else no sleep) and the new recorded timestamp, which Python takes
as `time.time()` after the sleep, i.e. `now + sleep`. -/
def rate_limit (last_request_time now : ℚ) : ℚ × ℚ :=
  let elapsed := now - last_request_time
  let wait := if elapsed < request_interval then request_interval - elapsed else 0
  (wait, now + wait)

/-- C5: a call entered at `now`, with the previous call recorded at `last`,
returns no earlier than `last + request_interval`; the recorded timestamp is
updated to the return time; and a call entered within 0.1s of the previous
record sleeps at least 0.24s. -/
theorem rate_limit_spec (last now : ℚ) :
    last + request_interval ≤ now + (rate_limit last now).1
      ∧ (rate_limit last now).2 = now + (rate_limit last now).1
      ∧ (now - last ≤ 1 / 10 → 24 / 100 ≤ (rate_limit last now).1) := by
  refine ⟨?_, rfl, ?_⟩
  · simp only [rate_limit, request_interval]
    split_ifs with hw
    · linarith
    · simp only [not_lt] at hw
      linarith
  · intro h1
    simp only [rate_limit, request_interval]
    split_ifs with hw
    · linarith
    · simp only [not_lt] at hw
      norm_num at hw
      linarith

theorem rate_limit_spec_witness :
    (0 : ℚ) + request_interval ≤ 1 / 10 + (rate_limit 0 (1 / 10)).1
      ∧ (rate_limit 0 (1 / 10)).2 = 1 / 10 + (rate_limit 0 (1 / 10)).1
      ∧ ((1 : ℚ) / 10 - 0 ≤ 1 / 10 → 24 / 100 ≤ (rate_limit 0 (1 / 10)).1) :=
  rate_limit_spec 0 (1 / 10)

/-- An HTTP response to `GET /api/arena`: its status code and its body, with
`none` standing for a payload `response.json()` cannot decode. -/
structure HttpResponse where
  status : ℕ
  body : Option Arena

/-- `AntProtocolClient.get_arena`'s state effect: `raise_for_status` aborts on
a non-2xx status and `response.json()` aborts on an undecodable body, both
before `self.current_state` is assigned; only on success is the snapshot
replaced and `_update_game_state` run. -/
def get_arena (st : ClientState) (resp : HttpResponse) : ClientState × Option Arena :=
  if 200 ≤ resp.status ∧ resp.status < 300 then
    match resp.body with
    | none => (st, none)
    | some a => (update_game_state { st with current_state := some a }, some a)
  else (st, none)

/-- C6: a failed fetch (non-2xx status or undecodable payload) leaves every
cached field — the snapshot and all derived indices — exactly as the previous
successful fetch left them, and yields no arena. -/
theorem get_arena_failure_preserves_state (st : ClientState) (resp : HttpResponse)
    (h : ¬(200 ≤ resp.status ∧ resp.status < 300) ∨ resp.body = none) :
    (get_arena st resp).1 = st ∧ (get_arena st resp).2 = none := by
  unfold get_arena
  rcases h with h | h
  · rw [if_neg h]
    exact ⟨rfl, rfl⟩
  · split_ifs with h2
    · rw [h]
      exact ⟨rfl, rfl⟩
    · exact ⟨rfl, rfl⟩

theorem get_arena_failure_preserves_state_witness :
    (get_arena demoState ⟨500, none⟩).1 = demoState
      ∧ (get_arena demoState ⟨500, none⟩).2 = none :=
  get_arena_failure_preserves_state demoState ⟨500, none⟩ (Or.inl (by decide))

end JustDoIt
